import Mathlib

/-!
Verification of the GPU-skinning example pipeline of the rusty_spine
repository (examples/gpu_skinning/spine.rs, examples/gpu_skinning/main.rs,
examples/gpu_skinning/pipeline.rs, examples/gpu_skinning.rs).

The shallow embedding below translates the relevant Rust functions into
Lean. Rust `f32` values that the code merely copies around (positions,
weights, uvs, colors) are modelled as rationals; all the claims examined
here only ever copy or compare these values, never round them. Rust `u16`
casts are modelled with an explicit `% 65536`. Rust slice reads `xs[i]`
panic when out of bounds; the embedding uses `List.getD` with default `0`,
and every concrete input evaluated below is chosen so that each read that
the original program performs is in bounds, so the default is never hit.
Rust operations that can panic mid-way (the fixed-size uniform-table writes
of `Stage::draw` in main.rs) are modelled with `Option`, `none` standing
for the panic.
-/

namespace GpuSkinning

/-- A baked vertex, from `struct Vertex` in examples/gpu_skinning/pipeline.rs:
four candidate local positions, four bone weights, four bone indices
(written as `f32` values in spine.rs), an RGBA color and a UV coordinate. -/
structure Vertex where
  positions : List (ℚ × ℚ)
  bone_weights : List ℚ
  bone_indices : List ℚ
  color : List ℚ
  uv : ℚ × ℚ
  deriving DecidableEq

/-- The all-zero vertex, used as the `List.getD` default when indexing the
baked vertex buffer in statements. -/
def defaultVertex : Vertex :=
  { positions := [], bone_weights := [], bone_indices := [], color := [], uv := (0, 0) }

/-- Per-attachment metadata, from `struct AttachmentInfo` in
examples/gpu_skinning.rs (also built at spine.rs lines 270-276).
`slot_index` is a `u16` in the source, the other fields are `u32`. -/
structure AttachmentInfo where
  slot_index : ℕ
  vertex_start : ℕ
  vertex_count : ℕ
  index_start : ℕ
  index_count : ℕ
  deriving DecidableEq

/-- A region attachment as read by `build_skeleton_buffers`:
`offset()` (8 floats, the 4 local corner positions), `uvs()` (8 floats)
and `color()` (RGBA). -/
structure RegionAttachment where
  offset : List ℚ
  uvs : List ℚ
  color : List ℚ
  deriving DecidableEq

/-- A mesh attachment as read by `build_skeleton_buffers`:
`vertices()` (packed float stream), `uvs()`, `bones()` (present exactly for
weighted meshes; the empty list models a null bones array, so
`has_bones()` is `bones ≠ []`), `triangles()` (u16 indices; its length is
`triangles_count()`) and `color()`. -/
structure MeshAttachment where
  vertices : List ℚ
  uvs : List ℚ
  bones : List ℕ
  triangles : List ℕ
  color : List ℚ
  deriving DecidableEq

/-- The attachment kinds distinguished by `build_skeleton_buffers`:
`as_region()` matches only `region`, `as_mesh()` matches only `mesh`, and
every other attachment type (clipping, bounding box, point, path) matches
neither; `clipping` stands for all of those. -/
inductive Attachment where
  | region (r : RegionAttachment)
  | mesh (m : MeshAttachment)
  | clipping
  deriving DecidableEq

/-- A slot as seen by the bake loop: `slot.bone().active()`,
`slot.bone().data().index()` (read only by the per-frame passes and by the
commented-out line 112 of spine.rs, never by the bake itself) and
`slot.attachment()`. -/
structure Slot where
  boneActive : Bool
  boneIndex : ℕ
  attachment : Option Attachment
  deriving DecidableEq

/-- Rust `as u16` cast. -/
def u16 (n : ℕ) : ℕ := n % 65536

/-- Capacity constants of examples/gpu_skinning.rs lines 12-14.
They are declared there and never used by any live code. -/
def MAX_MESH_VERTICES : ℕ := 10000

/-- See `MAX_MESH_VERTICES`. -/
def MAX_MESH_INDICES : ℕ := 20000

/-- The four vertices emitted for a region attachment, spine.rs lines
117-145: `positions[0]` is the local corner from `offset()`, the other
three candidate positions stay zero, the weights are `[1,0,0,0]`, all four
bone indices are `bone_index as f32` where `bone_index = slot_index`
(line 111), and the uv pair comes from `uvs()`. -/
def regionVerts (bone_index : ℕ) (r : RegionAttachment) : List Vertex :=
  (List.range 4).map fun vertex_index =>
    { positions := [(r.offset.getD (vertex_index * 2) 0, r.offset.getD (vertex_index * 2 + 1) 0),
                    (0, 0), (0, 0), (0, 0)]
      bone_weights := [1, 0, 0, 0]
      bone_indices := [(bone_index : ℚ), (bone_index : ℚ), (bone_index : ℚ), (bone_index : ℚ)]
      color := r.color
      uv := (r.uvs.getD (vertex_index * 2) 0, r.uvs.getD (vertex_index * 2 + 1) 0) }

/-- The six indices emitted for a region attachment, spine.rs lines
147-159: `base_index = vertices.len() as u16` taken before the four
vertices are pushed, then the two triangles
`[base, base+1, base+2, base+2, base+3, base]` (u16 arithmetic). -/
def regionIdxs (vlen : ℕ) : List ℕ :=
  let base := u16 vlen
  [base, u16 (base + 1), u16 (base + 2), u16 (base + 2), u16 (base + 3), base]

/-- One vertex of the weighted-mesh branch, spine.rs lines 175-213, exactly
as written: `bone_count = bones[bone_cursor]`, then for
`j in 0..bone_count.min(4)` the position and weight are read from the
fixed-stride locations `vertices[vertex_index*3 ..]` and the bone index
from `bones[bone_cursor + 1 + j]`; entries beyond `bone_count.min(4)` keep
their zero initialisation. The renormalisation step at lines 194-196 is
commented out in the source and therefore absent here. -/
def weightedVertex (m : MeshAttachment) (vertex_index bone_cursor : ℕ) : Vertex :=
  let bone_count := m.bones.getD bone_cursor 0
  let k := min bone_count 4
  { positions := (List.range 4).map fun j =>
      if j < k then
        (m.vertices.getD (vertex_index * 3) 0, m.vertices.getD (vertex_index * 3 + 1) 0)
      else (0, 0)
    bone_weights := (List.range 4).map fun j =>
      if j < k then m.vertices.getD (vertex_index * 3 + 2) 0 else 0
    bone_indices := (List.range 4).map fun j =>
      if j < k then ((m.bones.getD (bone_cursor + 1 + j) 0 : ℕ) : ℚ) else 0
    color := m.color
    uv := (m.uvs.getD (vertex_index * 2) 0, m.uvs.getD (vertex_index * 2 + 1) 0) }

/-- The weighted-mesh vertex loop, spine.rs lines 175-214. The source
advances the bones cursor by exactly one per produced vertex
(`bone_index += 1` at line 177 and nothing else), so the recursion passes
`bone_cursor + 1`, not `bone_cursor + 1 + bone_count`. -/
def weightedVertsGo (m : MeshAttachment) : ℕ → ℕ → ℕ → List Vertex
  | 0, _, _ => []
  | n + 1, vertex_index, bone_cursor =>
    weightedVertex m vertex_index bone_cursor ::
      weightedVertsGo m n (vertex_index + 1) (bone_cursor + 1)

/-- All vertices of the weighted-mesh branch:
`vertex_count = mesh_attachment.vertices().len() / 3` (spine.rs line 166). -/
def weightedVerts (m : MeshAttachment) : List Vertex :=
  weightedVertsGo m (m.vertices.length / 3) 0 0

/-- The unweighted-mesh branch, spine.rs lines 216-255:
`vertex_count = vertices().len() / 2`, one vertex per source vertex with
`positions[0]` the local position, weights `[1,0,0,0]` and all four bone
indices equal to the outer `bone_index = slot_index` of line 111. -/
def unweightedVerts (bone_index : ℕ) (m : MeshAttachment) : List Vertex :=
  (List.range (m.vertices.length / 2)).map fun vertex_index =>
    { positions := [(m.vertices.getD (vertex_index * 2) 0, m.vertices.getD (vertex_index * 2 + 1) 0),
                    (0, 0), (0, 0), (0, 0)]
      bone_weights := [1, 0, 0, 0]
      bone_indices := [(bone_index : ℚ), (bone_index : ℚ), (bone_index : ℚ), (bone_index : ℚ)]
      color := m.color
      uv := (m.uvs.getD (vertex_index * 2) 0, m.uvs.getD (vertex_index * 2 + 1) 0) }

/-- The vertices contributed by one slot, spine.rs lines 117-256:
region branch, mesh branch split on `has_bones()`, and nothing for any
other attachment kind. -/
def slotVerts (slot_index : ℕ) (att : Attachment) : List Vertex :=
  match att with
  | .region r => regionVerts slot_index r
  | .mesh m => if m.bones ≠ [] then weightedVerts m else unweightedVerts slot_index m
  | .clipping => []

/-- The mesh index emission, spine.rs lines 258-266, exactly as written:
`vertex_offset = vertices.len() as u16` is taken AFTER the mesh's own
vertices have been pushed (the shadowed binding at line 223, taken before
the pushes, is dead code), and each of the attachment's triangle indices is
rebased by that offset with u16 arithmetic. `vlen_after` is the vertex
count after the pushes. -/
def meshIdxs (m : MeshAttachment) (vlen_after : ℕ) : List ℕ :=
  let vertex_offset := u16 vlen_after
  m.triangles.map fun t => u16 (vertex_offset + u16 t)

/-- The indices contributed by one slot, given the vertex-buffer length
`vlen` at the start of the slot: six region indices based at `vlen`
(spine.rs line 148), or the mesh triangles rebased at
`vlen + number of mesh vertices just pushed` (spine.rs line 262). -/
def slotIdxs (slot_index : ℕ) (att : Attachment) (vlen : ℕ) : List ℕ :=
  match att with
  | .region _ => regionIdxs vlen
  | .mesh m => meshIdxs m (vlen + (slotVerts slot_index att).length)
  | .clipping => []

/-- The slot loop of `build_skeleton_buffers`, spine.rs lines 98-281.
`i` is the loop's `slot_index` (the position in draw order), `vlen` and
`ilen` are the current vertex/index buffer lengths; a slot is skipped when
its bone is inactive (line 103) or it has no attachment (line 107);
otherwise its geometry is appended and an `AttachmentInfo` with
`vertex_start = vlen`, `index_start = ilen` and the appended counts is
recorded (lines 270-280) — for every attachment kind, clipping included. -/
def build : ℕ → ℕ → ℕ → List Slot → List Vertex × List ℕ × List AttachmentInfo
  | _, _, _, [] => ([], [], [])
  | i, vlen, ilen, s :: rest =>
    if s.boneActive then
      match s.attachment with
      | some att =>
        let nv := slotVerts i att
        let ni := slotIdxs i att vlen
        let info : AttachmentInfo :=
          { slot_index := u16 i, vertex_start := vlen, vertex_count := nv.length,
            index_start := ilen, index_count := ni.length }
        let r := build (i + 1) (vlen + nv.length) (ilen + ni.length) rest
        (nv ++ r.1, ni ++ r.2.1, info :: r.2.2)
      | none => build (i + 1) vlen ilen rest
    else build (i + 1) vlen ilen rest

/-- `Spine::build_skeleton_buffers` of examples/gpu_skinning/spine.rs,
lines 93-284, over the skeleton's draw-order slot list. -/
def buildSkeletonBuffers (skel : List Slot) : List Vertex × List ℕ × List AttachmentInfo :=
  build 0 0 0 skel

/-- A bounds-checked single-cell store, modelling the Rust array store
`deform_offsets[slot_index] = v` of main.rs: `none` models the
index-out-of-bounds panic. -/
def setIdx (l : List ℤ) (i : ℕ) (v : ℤ) : Option (List ℤ) :=
  if i < l.length then some (l.set i v) else none

/-- A bounds-checked slice store, modelling the copy into
`deform[deform_cursor..deform_cursor + count]` of main.rs lines 362-367:
`none` models the slice-out-of-bounds panic. -/
def writeSlice (tab : List ℚ) (pos : ℕ) (vals : List ℚ) : Option (List ℚ) :=
  if pos + vals.length ≤ tab.length then
    some (tab.take pos ++ vals ++ tab.drop (pos + vals.length))
  else none

/-- The per-frame deform pass of `Stage::draw`, main.rs lines 350-370,
over the slots in slot-index order (`skeleton.slots()`; the k-th list is
slot k's deform array). A slot with `deform_count() == 0` gets offset `-1`;
otherwise its offset is the running cursor, its floats are copied into the
table, and the cursor advances by their count. No capacity check appears in
the source; an out-of-bounds store gives `none`. -/
def deformLoop : List (List ℚ) → ℕ → ℕ → List ℤ → List ℚ → Option (List ℤ × List ℚ × ℕ)
  | [], _, cursor, offs, tab => some (offs, tab, cursor)
  | d :: rest, i, cursor, offs, tab =>
    if d.length = 0 then
      match setIdx offs i (-1) with
      | some offs1 => deformLoop rest (i + 1) cursor offs1 tab
      | none => none
    else
      match setIdx offs i (cursor : ℤ) with
      | some offs1 =>
        match writeSlice tab cursor d with
        | some tab1 => deformLoop rest (i + 1) (cursor + d.length) offs1 tab1
        | none => none
      | none => none

/-- The deform extraction of main.rs lines 350-370 with its fixed-capacity
tables: `deform_offsets` starts as `[-1; offCap]` and `deform` as
`[0.0; tabCap]`, the cursor at `0`. -/
def extractDeform (offCap tabCap : ℕ) (slots : List (List ℚ)) :
    Option (List ℤ × List ℚ × ℕ) :=
  deformLoop slots 0 0 (List.replicate offCap (-1)) (List.replicate tabCap 0)

/-- Total number of deform floats of a pose. -/
def totalLen (slots : List (List ℚ)) : ℕ := (slots.map List.length).sum

/-- Number of deform floats stored before slot `k` (the cursor value when
slot `k` is processed). -/
def sumBefore (slots : List (List ℚ)) (k : ℕ) : ℕ := ((slots.take k).map List.length).sum

/-- miniquad blend equation (only `Add` is ever produced by the table). -/
inductive Equation where
  | Add
  | Subtract
  | ReverseSubtract
  deriving DecidableEq

/-- miniquad `BlendValue`. -/
inductive BlendValue where
  | SourceColor
  | SourceAlpha
  | DestinationColor
  | DestinationAlpha
  deriving DecidableEq

/-- miniquad `BlendFactor`. -/
inductive BlendFactor where
  | Zero
  | One
  | Value (v : BlendValue)
  | OneMinusValue (v : BlendValue)
  deriving DecidableEq

/-- miniquad `BlendState::new(equation, sfactor, dfactor)`. -/
structure BlendState where
  equation : Equation
  sfactor : BlendFactor
  dfactor : BlendFactor
  deriving DecidableEq

/-- The four Spine blend modes. -/
inductive BlendMode where
  | Additive
  | Multiply
  | Normal
  | Screen
  deriving DecidableEq

/-- The pair returned by `GetBlendStates::get_blend_states`,
examples/gpu_skinning.rs lines 466-469. -/
structure BlendStates where
  alpha_blend : BlendState
  color_blend : BlendState
  deriving DecidableEq

/-- `GetBlendStates::get_blend_states` of examples/gpu_skinning.rs lines
475-580, translated case by case. -/
def get_blend_states (mode : BlendMode) (premultiplied_alpha : Bool) : BlendStates :=
  match mode, premultiplied_alpha with
  | .Additive, false =>
    { alpha_blend := ⟨.Add, .One, .One⟩
      color_blend := ⟨.Add, .Value .SourceAlpha, .One⟩ }
  | .Additive, true =>
    { alpha_blend := ⟨.Add, .One, .One⟩
      color_blend := ⟨.Add, .One, .One⟩ }
  | .Multiply, false =>
    { alpha_blend := ⟨.Add, .OneMinusValue .SourceAlpha, .OneMinusValue .SourceAlpha⟩
      color_blend := ⟨.Add, .Value .DestinationColor, .OneMinusValue .SourceAlpha⟩ }
  | .Multiply, true =>
    { alpha_blend := ⟨.Add, .OneMinusValue .SourceAlpha, .OneMinusValue .SourceAlpha⟩
      color_blend := ⟨.Add, .Value .DestinationColor, .OneMinusValue .SourceAlpha⟩ }
  | .Normal, false =>
    { alpha_blend := ⟨.Add, .One, .OneMinusValue .SourceAlpha⟩
      color_blend := ⟨.Add, .Value .SourceAlpha, .OneMinusValue .SourceAlpha⟩ }
  | .Normal, true =>
    { alpha_blend := ⟨.Add, .One, .OneMinusValue .SourceAlpha⟩
      color_blend := ⟨.Add, .One, .OneMinusValue .SourceAlpha⟩ }
  | .Screen, false =>
    { alpha_blend := ⟨.Add, .OneMinusValue .SourceColor, .OneMinusValue .SourceAlpha⟩
      color_blend := ⟨.Add, .One, .OneMinusValue .SourceAlpha⟩ }
  | .Screen, true =>
    { alpha_blend := ⟨.Add, .OneMinusValue .SourceColor, .OneMinusValue .SourceAlpha⟩
      color_blend := ⟨.Add, .One, .OneMinusValue .SourceAlpha⟩ }

/-- A concrete region attachment (a unit quad) used as evaluation input. -/
def demoRegion : RegionAttachment :=
  { offset := [0, 0, 100, 0, 100, 100, 0, 100]
    uvs := [0, 0, 1, 0, 1, 1, 0, 1]
    color := [1, 1, 1, 1] }

/-- A slot carrying `demoRegion` on an active bone. -/
def demoRegionSlot : Slot :=
  { boneActive := true, boneIndex := 0, attachment := some (.region demoRegion) }

/-- A concrete unweighted mesh: 3 vertices, one triangle `[0,1,2]`. -/
def demoUnweightedMesh : MeshAttachment :=
  { vertices := [0, 0, 10, 0, 0, 10]
    uvs := [0, 0, 1, 0, 0, 1]
    bones := []
    triangles := [0, 1, 2]
    color := [1, 1, 1, 1] }

/-- A skeleton holding only `demoUnweightedMesh` on an active slot. -/
def demoUnweightedSkel : List Slot :=
  [{ boneActive := true, boneIndex := 0, attachment := some (.mesh demoUnweightedMesh) }]

/-- A concrete weighted mesh whose packed stream declares two vertices: the
first with five influences (bone indices 3, 2, 1, 0, 1), the second with a
single influence on bone 7. The stream is
`bones = [count, i1..i5, count, i6]` and `vertices` holds one
`(x, y, weight)` triple per influence. All the slice reads the source
performs on this input stay in bounds. -/
def demoWeightedMesh : MeshAttachment :=
  { vertices := [1, 1, 5, 2, 2, 6, 3, 3, 7, 4, 4, 8, 5, 5, 9, 6, 6, 10]
    uvs := [0, 0, 0, 0, 0, 0, 0, 0, 0, 0, 0, 0]
    bones := [5, 3, 2, 1, 0, 1, 1, 7]
    triangles := []
    color := [1, 1, 1, 1] }

/-- A skeleton holding only `demoWeightedMesh` on an active slot. -/
def demoWeightedSkel : List Slot :=
  [{ boneActive := true, boneIndex := 0, attachment := some (.mesh demoWeightedMesh) }]

/-- A concrete weighted mesh with one true vertex of three influences with
weights 1/2, 1/4, 1/4 on bones 0, 1, 2. -/
def demoWeightSumMesh : MeshAttachment :=
  { vertices := [1, 1, 1/2, 2, 2, 1/4, 3, 3, 1/4]
    uvs := [0, 0, 0, 0, 0, 0]
    bones := [3, 0, 1, 2]
    triangles := []
    color := [1, 1, 1, 1] }

/-- A skeleton holding only `demoWeightSumMesh` on an active slot. -/
def demoWeightSumSkel : List Slot :=
  [{ boneActive := true, boneIndex := 0, attachment := some (.mesh demoWeightSumMesh) }]

/-- A skeleton holding only a clipping attachment on an active slot. -/
def demoClippingSkel : List Slot :=
  [{ boneActive := true, boneIndex := 0, attachment := some .clipping }]

/-- A concrete valid deform pose: slot 0 carries two floats, slot 1 none,
slot 2 one float. -/
def demoDeformPose : List (List ℚ) := [[1, 2], [], [3]]

/-- A concrete overflowing deform pose: a single slot with three floats. -/
def demoOverflowPose : List (List ℚ) := [[1, 2, 3]]

theorem length_regionVerts (i : ℕ) (r : RegionAttachment) : (regionVerts i r).length = 4 := by
  simp [regionVerts]

theorem length_regionIdxs (vlen : ℕ) : (regionIdxs vlen).length = 6 := rfl

theorem mem_regionVerts {i : ℕ} {r : RegionAttachment} {v : Vertex}
    (h : v ∈ regionVerts i r) :
    v.bone_weights = [1, 0, 0, 0] ∧
      v.bone_indices = [(i : ℚ), (i : ℚ), (i : ℚ), (i : ℚ)] := by
  simp only [regionVerts, List.mem_map, List.mem_range] at h
  obtain ⟨j, -, rfl⟩ := h
  exact ⟨rfl, rfl⟩

theorem mem_unweightedVerts {i : ℕ} {m : MeshAttachment} {v : Vertex}
    (h : v ∈ unweightedVerts i m) :
    v.bone_weights = [1, 0, 0, 0] ∧
      v.bone_indices = [(i : ℚ), (i : ℚ), (i : ℚ), (i : ℚ)] := by
  simp only [unweightedVerts, List.mem_map, List.mem_range] at h
  obtain ⟨j, -, rfl⟩ := h
  exact ⟨rfl, rfl⟩

theorem build_allSkipped (slots : List Slot) :
    ∀ i vlen ilen, (∀ s ∈ slots, s.boneActive = false ∨ s.attachment = none) →
      build i vlen ilen slots = ([], [], []) := by
  induction slots with
  | nil => intro i vlen ilen _; rfl
  | cons s rest ih =>
    intro i vlen ilen h
    have hrest : ∀ s' ∈ rest, s'.boneActive = false ∨ s'.attachment = none :=
      fun s' hs' => h s' (List.mem_cons_of_mem _ hs')
    rcases h s (List.mem_cons_self s rest) with hb | ha
    · simpa [build, hb] using ih (i + 1) vlen ilen hrest
    · cases hb : s.boneActive
      · simpa [build, hb] using ih (i + 1) vlen ilen hrest
      · simpa [build, hb, ha] using ih (i + 1) vlen ilen hrest

theorem build_singleRegion (skel : List Slot) :
    ∀ (i i0 : ℕ) (s : Slot) (r : RegionAttachment),
      skel.get? i = some s → s.boneActive = true →
      s.attachment = some (.region r) →
      (∀ j s', j ≠ i → skel.get? j = some s' →
        s'.boneActive = false ∨ s'.attachment = none) →
      build i0 0 0 skel =
        (regionVerts (i0 + i) r, [0, 1, 2, 2, 3, 0],
          [⟨u16 (i0 + i), 0, 4, 0, 6⟩]) := by
  induction skel with
  | nil => intro i i0 s r hget; simp at hget
  | cons s0 rest ih =>
    intro i i0 s r hget hact hatt hothers
    cases i with
    | zero =>
      rw [List.get?_cons_zero] at hget
      injection hget with hget
      subst hget
      have hrest : ∀ s' ∈ rest, s'.boneActive = false ∨ s'.attachment = none := by
        intro s' hs'
        obtain ⟨j, hj⟩ := List.mem_iff_get?.mp hs'
        exact hothers (j + 1) s' (Nat.succ_ne_zero j) (by simpa using hj)
      have hrec := build_allSkipped rest (i0 + 1)
        (0 + (slotVerts i0 (.region r)).length)
        (0 + (slotIdxs i0 (.region r) 0).length) hrest
      simp only [build, hact, if_true, hatt, hrec]
      simp [slotVerts, slotIdxs, length_regionVerts, regionIdxs, u16]
    | succ i =>
      rw [List.get?_cons_succ] at hget
      have hskip := hothers 0 s0 (Nat.succ_ne_zero i).symm List.get?_cons_zero
      have hothers' : ∀ j s', j ≠ i → rest.get? j = some s' →
          s'.boneActive = false ∨ s'.attachment = none := by
        intro j s' hj hg
        exact hothers (j + 1) s' (by omega) (by simpa using hg)
      have harith : i0 + 1 + i = i0 + (i + 1) := by omega
      have hrec := ih i (i0 + 1) s r hget hact hatt hothers'
      rw [harith] at hrec
      rcases hskip with hb | ha
      · simpa [build, hb] using hrec
      · cases hb : s0.boneActive
        · simpa [build, hb] using hrec
        · simpa [build, hb, ha] using hrec

theorem build_slot_segment (slots : List Slot) :
    ∀ (k i0 vlen ilen : ℕ) (s : Slot) (att : Attachment),
      slots.get? k = some s → s.boneActive = true → s.attachment = some att →
      ∃ info ∈ (build i0 vlen ilen slots).2.2,
        info.slot_index = u16 (i0 + k) ∧
        info.vertex_count = (slotVerts (i0 + k) att).length ∧
        info.index_count = (slotIdxs (i0 + k) att info.vertex_start).length ∧
        vlen ≤ info.vertex_start ∧
        ∀ t, t < info.vertex_count →
          (build i0 vlen ilen slots).1.getD (info.vertex_start - vlen + t) defaultVertex
            = (slotVerts (i0 + k) att).getD t defaultVertex := by
  induction slots with
  | nil => intro k i0 vlen ilen s att hget; simp at hget
  | cons s0 rest ih =>
    intro k i0 vlen ilen s att hget hact hatt
    cases k with
    | zero =>
      rw [List.get?_cons_zero] at hget
      injection hget with hget
      subst hget
      refine ⟨⟨u16 i0, vlen, (slotVerts i0 att).length, ilen,
        (slotIdxs i0 att vlen).length⟩, ?_, ?_, ?_, ?_, ?_, ?_⟩
      · simp [build, hact, hatt]
      · simp
      · simp
      · simp
      · simp
      · intro t ht
        simp only [build, hact, if_true, hatt, Nat.add_zero, Nat.sub_self, Nat.zero_add]
        exact List.getD_append _ _ _ _ (by simpa using ht)
    | succ k =>
      rw [List.get?_cons_succ] at hget
      have harith : i0 + 1 + k = i0 + (k + 1) := by omega
      cases hb : s0.boneActive with
      | false =>
        have hrec := ih k (i0 + 1) vlen ilen s att hget hact hatt
        rw [harith] at hrec
        simpa [build, hb] using hrec
      | true =>
        cases ha : s0.attachment with
        | none =>
          have hrec := ih k (i0 + 1) vlen ilen s att hget hact hatt
          rw [harith] at hrec
          simpa [build, hb, ha] using hrec
        | some att0 =>
          have hrec := ih k (i0 + 1) (vlen + (slotVerts i0 att0).length)
            (ilen + (slotIdxs i0 att0 vlen).length) s att hget hact hatt
          rw [harith] at hrec
          obtain ⟨info, hmem, hsi, hvc, hic, hvs, hseg⟩ := hrec
          refine ⟨info, ?_, hsi, hvc, hic, by omega, ?_⟩
          · simp only [build, hb, if_true, ha]
            exact List.mem_cons_of_mem _ hmem
          · intro t ht
            have hge : (slotVerts i0 att0).length ≤ info.vertex_start - vlen + t := by
              omega
            simp only [build, hb, if_true, ha]
            rw [List.getD_append_right _ _ _ _ hge]
            have harith2 : info.vertex_start - vlen + t - (slotVerts i0 att0).length
                = info.vertex_start - (vlen + (slotVerts i0 att0).length) + t := by
              omega
            rw [harith2]
            exact hseg t ht

theorem build_weights (slots : List Slot) :
    ∀ i vlen ilen,
      (∀ s ∈ slots, ∀ m : MeshAttachment, s.attachment = some (.mesh m) → m.bones = []) →
      ∀ v ∈ (build i vlen ilen slots).1, v.bone_weights = [1, 0, 0, 0] := by
  induction slots with
  | nil => intro i vlen ilen _ v hv; simp [build] at hv
  | cons s rest ih =>
    intro i vlen ilen h v hv
    have hrest : ∀ s' ∈ rest, ∀ m : MeshAttachment,
        s'.attachment = some (.mesh m) → m.bones = [] :=
      fun s' hs' => h s' (List.mem_cons_of_mem _ hs')
    cases hb : s.boneActive with
    | false =>
      rw [build] at hv
      simp only [hb] at hv
      exact ih (i + 1) vlen ilen hrest v (by simpa using hv)
    | true =>
      cases ha : s.attachment with
      | none =>
        rw [build] at hv
        simp only [hb, ha] at hv
        exact ih (i + 1) vlen ilen hrest v (by simpa using hv)
      | some att =>
        rw [build] at hv
        simp only [hb, ha, if_true, List.mem_append] at hv
        rcases hv with hv | hv
        · cases att with
          | region r => exact (mem_regionVerts (by simpa [slotVerts] using hv)).1
          | mesh m =>
            have hm : m.bones = [] := h s (List.mem_cons_self s rest) m ha
            rw [slotVerts] at hv
            rw [if_neg (by simp [hm])] at hv
            exact (mem_unweightedVerts hv).1
          | clipping => simp [slotVerts] at hv
        · exact ih (i + 1) (vlen + (slotVerts i att).length)
            (ilen + (slotIdxs i att vlen).length) hrest v hv

theorem build_replicate_region (r : RegionAttachment) (b : ℕ) :
    ∀ (n i vlen ilen : ℕ),
      (build i vlen ilen
        (List.replicate n ⟨true, b, some (.region r)⟩)).1.length = 4 * n := by
  intro n
  induction n with
  | zero => intro i vlen ilen; rfl
  | succ n ih =>
    intro i vlen ilen
    rw [List.replicate_succ, build]
    simp only [if_true, List.length_append]
    rw [ih]
    simp [slotVerts, length_regionVerts]
    ring

theorem getD_set_self {α : Type} (l : List α) (i : ℕ) (v d : α) (h : i < l.length) :
    (l.set i v).getD i d = v := by
  rw [List.getD_eq_getElem _ _ (by simpa using h)]
  simp

theorem getD_set_ne {α : Type} (l : List α) (i j : ℕ) (v d : α) (hne : i ≠ j) :
    (l.set i v).getD j d = l.getD j d := by
  rcases Nat.lt_or_ge j l.length with h | h
  · rw [List.getD_eq_getElem _ _ (by simpa using h), List.getD_eq_getElem _ _ h]
    simp [List.getElem_set, hne]
  · rw [List.getD_eq_default _ _ (by simpa using h), List.getD_eq_default _ _ h]

theorem setIdx_eq_some {l : List ℤ} {i : ℕ} (v : ℤ) (h : i < l.length) :
    setIdx l i v = some (l.set i v) := by
  simp [setIdx, h]

theorem writeSlice_eq_some {tab : List ℚ} {pos : ℕ} {vals : List ℚ}
    (h : pos + vals.length ≤ tab.length) :
    writeSlice tab pos vals
      = some (tab.take pos ++ vals ++ tab.drop (pos + vals.length)) := by
  simp [writeSlice, h]

theorem length_writeSlice {tab : List ℚ} {pos : ℕ} {vals : List ℚ}
    (h : pos + vals.length ≤ tab.length) :
    (tab.take pos ++ vals ++ tab.drop (pos + vals.length)).length = tab.length := by
  simp only [List.length_append, List.length_take, List.length_drop]
  omega

theorem writeSlice_getD_below {tab : List ℚ} {pos : ℕ} {vals : List ℚ} {m : ℕ}
    (h : pos + vals.length ≤ tab.length) (hm : m < pos) :
    (tab.take pos ++ vals ++ tab.drop (pos + vals.length)).getD m 0 = tab.getD m 0 := by
  have hlen : (tab.take pos).length = pos := by
    simp [List.length_take]
    omega
  rw [List.append_assoc, List.getD_append _ _ _ _ (by omega)]
  rw [List.getD_eq_getElem _ _ (by omega),
    List.getD_eq_getElem _ _ (show m < tab.length by omega)]
  exact List.getElem_take ..

theorem writeSlice_getD_inside {tab : List ℚ} {pos : ℕ} {vals : List ℚ} {t : ℕ}
    (h : pos + vals.length ≤ tab.length) (ht : t < vals.length) :
    (tab.take pos ++ vals ++ tab.drop (pos + vals.length)).getD (pos + t) 0
      = vals.getD t 0 := by
  have hlen : (tab.take pos).length = pos := by
    simp [List.length_take]
    omega
  rw [List.append_assoc, List.getD_append_right _ _ _ _ (by omega), hlen]
  rw [show pos + t - pos = t by omega]
  exact List.getD_append _ _ _ _ ht

theorem sumBefore_zero (slots : List (List ℚ)) : sumBefore slots 0 = 0 := rfl

theorem sumBefore_cons_succ (d : List ℚ) (rest : List (List ℚ)) (k : ℕ) :
    sumBefore (d :: rest) (k + 1) = d.length + sumBefore rest k := by
  simp [sumBefore, List.take_succ_cons]

theorem totalLen_nil : totalLen [] = 0 := rfl

theorem totalLen_cons (d : List ℚ) (rest : List (List ℚ)) :
    totalLen (d :: rest) = d.length + totalLen rest := by
  simp [totalLen]

theorem sumBefore_succ_of_lt (slots : List (List ℚ)) :
    ∀ i, i < slots.length →
      sumBefore slots (i + 1) = sumBefore slots i + (slots.getD i []).length := by
  induction slots with
  | nil => intro i hi; simp at hi
  | cons d rest ih =>
    intro i hi
    cases i with
    | zero => simp [sumBefore_cons_succ, sumBefore_zero]
    | succ i =>
      rw [sumBefore_cons_succ, sumBefore_cons_succ, List.getD_cons_succ,
        ih i (by simpa using hi)]
      omega

theorem sumBefore_mono (slots : List (List ℚ)) :
    ∀ a b, a ≤ b → sumBefore slots a ≤ sumBefore slots b := by
  induction slots with
  | nil => intro a b _; simp [sumBefore]
  | cons d rest ih =>
    intro a b hab
    cases a with
    | zero => simp [sumBefore_zero]
    | succ a =>
      cases b with
      | zero => omega
      | succ b =>
        rw [sumBefore_cons_succ, sumBefore_cons_succ]
        exact Nat.add_le_add_left (ih a b (by omega)) _

theorem deformLoop_spec (slots : List (List ℚ)) :
    ∀ (i cursor : ℕ) (offs : List ℤ) (tab : List ℚ),
      i + slots.length ≤ offs.length →
      cursor + totalLen slots ≤ tab.length →
      ∃ offs1 tab1,
        deformLoop slots i cursor offs tab = some (offs1, tab1, cursor + totalLen slots) ∧
        offs1.length = offs.length ∧ tab1.length = tab.length ∧
        (∀ m, m < i → offs1.getD m 0 = offs.getD m 0) ∧
        (∀ m, m < cursor → tab1.getD m 0 = tab.getD m 0) ∧
        ∀ k, k < slots.length →
          (offs1.getD (i + k) 0 =
            if slots.getD k [] = [] then -1
            else ((cursor + sumBefore slots k : ℕ) : ℤ)) ∧
          ∀ t, t < (slots.getD k []).length →
            tab1.getD (cursor + sumBefore slots k + t) 0 = (slots.getD k []).getD t 0 := by
  induction slots with
  | nil =>
    intro i cursor offs tab h1 h2
    refine ⟨offs, tab, ?_, rfl, rfl, fun m _ => rfl, fun m _ => rfl,
      fun k hk => absurd hk (by simp)⟩
    simp [deformLoop, totalLen_nil]
  | cons d rest ih =>
    intro i cursor offs tab h1 h2
    rw [List.length_cons] at h1
    have hi : i < offs.length := by omega
    by_cases hd : d.length = 0
    · have hdnil : d = [] := List.length_eq_zero.mp hd
      have hset := setIdx_eq_some (-1 : ℤ) hi
      have hlen1 : (offs.set i (-1)).length = offs.length := by simp
      obtain ⟨offs1, tab1, hloop, holen, htlen, hoff_pres, htab_pres, hks⟩ :=
        ih (i + 1) cursor (offs.set i (-1)) tab (by rw [hlen1]; omega)
          (by rw [totalLen_cons, hdnil] at h2; simpa using h2)
      refine ⟨offs1, tab1, ?_, by rw [holen, hlen1], htlen, ?_, htab_pres, ?_⟩
      · have hstep : deformLoop (d :: rest) i cursor offs tab
            = deformLoop rest (i + 1) cursor (offs.set i (-1)) tab := by
          simp [deformLoop, hd, hset]
        rw [hstep, hloop, totalLen_cons, hdnil]
        simp
      · intro m hm
        rw [hoff_pres m (by omega), getD_set_ne _ _ _ _ _ (by omega)]
      · intro k hkk
        cases k with
        | zero =>
          constructor
          · rw [Nat.add_zero, hoff_pres i (by omega), getD_set_self _ _ _ _ hi]
            simp [hdnil]
          · intro t ht
            rw [List.getD_cons_zero, hdnil] at ht
            simp at ht
        | succ k =>
          have hk1 : k < rest.length := by simpa using hkk
          obtain ⟨ho, htb⟩ := hks k hk1
          constructor
          · rw [show i + (k + 1) = i + 1 + k by omega, List.getD_cons_succ,
              sumBefore_cons_succ, hdnil]
            simpa using ho
          · intro t ht
            rw [List.getD_cons_succ] at ht ⊢
            rw [sumBefore_cons_succ, hdnil]
            simpa using htb t ht
    · have hset := setIdx_eq_some (cursor : ℤ) hi
      have hw : cursor + d.length ≤ tab.length := by
        rw [totalLen_cons] at h2
        omega
      have hwrite := writeSlice_eq_some hw
      have htlen1 : (tab.take cursor ++ d ++ tab.drop (cursor + d.length)).length
          = tab.length := length_writeSlice hw
      obtain ⟨offs1, tab1, hloop, holen, htlen, hoff_pres, htab_pres, hks⟩ :=
        ih (i + 1) (cursor + d.length) (offs.set i (cursor : ℤ))
          (tab.take cursor ++ d ++ tab.drop (cursor + d.length))
          (by simp; omega)
          (by rw [htlen1]; rw [totalLen_cons] at h2; omega)
      refine ⟨offs1, tab1, ?_, by simp [holen], by rw [htlen, htlen1], ?_, ?_, ?_⟩
      · have hstep : deformLoop (d :: rest) i cursor offs tab
            = deformLoop rest (i + 1) (cursor + d.length) (offs.set i (cursor : ℤ))
                (tab.take cursor ++ d ++ tab.drop (cursor + d.length)) := by
          simp [deformLoop, hd, hset, hwrite]
        rw [hstep, hloop, totalLen_cons, Nat.add_assoc]
      · intro m hm
        rw [hoff_pres m (by omega), getD_set_ne _ _ _ _ _ (by omega)]
      · intro m hm
        rw [htab_pres m (by omega)]
        exact writeSlice_getD_below hw hm
      · intro k hkk
        cases k with
        | zero =>
          constructor
          · rw [Nat.add_zero, hoff_pres i (by omega), getD_set_self _ _ _ _ hi]
            have hne : ¬(d = []) := fun hnil => hd (by simp [hnil])
            simp [hne, sumBefore_zero]
          · intro t ht
            rw [List.getD_cons_zero] at ht ⊢
            rw [sumBefore_zero, Nat.add_zero]
            rw [htab_pres (cursor + t) (by omega)]
            exact writeSlice_getD_inside hw ht
        | succ k =>
          have hk1 : k < rest.length := by simpa using hkk
          obtain ⟨ho, htb⟩ := hks k hk1
          constructor
          · rw [show i + (k + 1) = i + 1 + k by omega, List.getD_cons_succ,
              sumBefore_cons_succ, ho, show cursor + (d.length + sumBefore rest k)
                = cursor + d.length + sumBefore rest k by omega]
          · intro t ht
            rw [List.getD_cons_succ] at ht ⊢
            rw [sumBefore_cons_succ, show cursor + (d.length + sumBefore rest k) + t
              = cursor + d.length + sumBefore rest k + t by omega]
            exact htb t ht

theorem deformLoop_overflow (slots : List (List ℚ)) :
    ∀ (i cursor : ℕ) (offs : List ℤ) (tab : List ℚ),
      cursor ≤ tab.length → tab.length < cursor + totalLen slots →
      i + slots.length ≤ offs.length →
      deformLoop slots i cursor offs tab = none := by
  induction slots with
  | nil =>
    intro i cursor offs tab h1 h2 _
    rw [totalLen_nil] at h2
    omega
  | cons d rest ih =>
    intro i cursor offs tab h1 h2 h3
    rw [List.length_cons] at h3
    rw [totalLen_cons] at h2
    have hi : i < offs.length := by omega
    by_cases hd : d.length = 0
    · have hset := setIdx_eq_some (-1 : ℤ) hi
      have hstep : deformLoop (d :: rest) i cursor offs tab
          = deformLoop rest (i + 1) cursor (offs.set i (-1)) tab := by
        simp [deformLoop, hd, hset]
      rw [hstep]
      exact ih (i + 1) cursor _ tab h1 (by omega) (by simp; omega)
    · by_cases hw : cursor + d.length ≤ tab.length
      · have hset := setIdx_eq_some (cursor : ℤ) hi
        have hwrite := writeSlice_eq_some hw
        have htlen1 : (tab.take cursor ++ d ++ tab.drop (cursor + d.length)).length
            = tab.length := length_writeSlice hw
        have hstep : deformLoop (d :: rest) i cursor offs tab
            = deformLoop rest (i + 1) (cursor + d.length) (offs.set i (cursor : ℤ))
                (tab.take cursor ++ d ++ tab.drop (cursor + d.length)) := by
          simp [deformLoop, hd, hset, hwrite]
        rw [hstep]
        exact ih (i + 1) (cursor + d.length) _ _ (by omega)
          (by rw [htlen1]; omega) (by simp; omega)
      · have hset := setIdx_eq_some (cursor : ℤ) hi
        have hwrite : writeSlice tab cursor d = none := by
          simp [writeSlice, hw]
        simp [deformLoop, hd, hset, hwrite]

/-- C1: for every skeleton whose only baked attachment is a single Region
attachment on a bone-active slot (every other slot is skipped as inactive
or attachment-less), `build_skeleton_buffers` emits exactly 4 vertices,
exactly the 6 indices `[0, 1, 2, 2, 3, 0]` (the vertex offset before the
region is 0), and exactly one metadata entry, whose `index_count` is 6. -/
theorem c1_single_region_bake (skel : List Slot) (i : ℕ) (s : Slot) (r : RegionAttachment)
    (hget : skel.get? i = some s) (hact : s.boneActive = true)
    (hatt : s.attachment = some (.region r))
    (hothers : ∀ j s', j ≠ i → skel.get? j = some s' →
      s'.boneActive = false ∨ s'.attachment = none) :
    (buildSkeletonBuffers skel).1.length = 4 ∧
    (buildSkeletonBuffers skel).2.1 = [0, 1, 2, 2, 3, 0] ∧
    (buildSkeletonBuffers skel).2.2.length = 1 ∧
    ∀ info ∈ (buildSkeletonBuffers skel).2.2, info.index_count = 6 := by
  have h := build_singleRegion skel i 0 s r hget hact hatt hothers
  unfold buildSkeletonBuffers
  rw [h]
  refine ⟨by simp [length_regionVerts], rfl, rfl, ?_⟩
  intro info hinfo
  rw [List.mem_singleton] at hinfo
  rw [hinfo]

/-- Witness for C1 at a concrete one-slot skeleton holding `demoRegion`. -/
theorem c1_single_region_bake_witness :
    (([demoRegionSlot] : List Slot).get? 0 = some demoRegionSlot ∧
      demoRegionSlot.boneActive = true ∧
      demoRegionSlot.attachment = some (.region demoRegion)) ∧
    (buildSkeletonBuffers [demoRegionSlot]).1.length = 4 ∧
    (buildSkeletonBuffers [demoRegionSlot]).2.1 = [0, 1, 2, 2, 3, 0] ∧
    (buildSkeletonBuffers [demoRegionSlot]).2.2.length = 1 ∧
    ∀ info ∈ (buildSkeletonBuffers [demoRegionSlot]).2.2, info.index_count = 6 :=
  ⟨⟨rfl, rfl, rfl⟩,
    c1_single_region_bake [demoRegionSlot] 0 demoRegionSlot demoRegion rfl rfl rfl
      (by
        intro j s' hj hg
        rcases j with _ | n
        · exact absurd rfl hj
        · rw [List.get?_cons_succ] at hg
          simp at hg)⟩

/-- C2: evaluation of the code at the failing input. Baking a skeleton whose
only attachment is an unweighted 3-vertex mesh with triangle list
`[0, 1, 2]` produces the index buffer `[3, 4, 5]`: the triangles are
rebased by the vertex count measured AFTER the mesh's vertices were pushed
(spine.rs line 262), so every produced index lies outside the attachment's
own vertex range `[0, 3)` and outside the 3-entry vertex buffer entirely,
even though the metadata records the correct ranges. -/
theorem c2_mesh_index_rebase_eval :
    (buildSkeletonBuffers demoUnweightedSkel).1.length = 3 ∧
    (buildSkeletonBuffers demoUnweightedSkel).2.1 = [3, 4, 5] ∧
    (buildSkeletonBuffers demoUnweightedSkel).2.2 = [⟨0, 0, 3, 0, 3⟩] ∧
    ∀ x ∈ (buildSkeletonBuffers demoUnweightedSkel).2.1, 3 ≤ x := by
  decide

/-- C3: evaluation of the code at the failing input. Baking a weighted mesh
whose stream declares vertex 0 with five influences (bones 3, 2, 1, 0, 1)
and vertex 1 with one influence (bone 7) emits 6 vertices instead of 2
(`vertex_count` is computed as `vertices().len() / 3`, the total influence
count), stores for the second vertex the bone indices `[2, 1, 0, 0]` read
from the middle of vertex 0's influence list (a correct parser would store
`[7, 0, 0, 0]`), and copies the same weight into all four weight slots of
vertex 0; the bones cursor advances by only 1 per vertex, never past the
remaining influences, and no warning exists anywhere in the function. -/
theorem c3_influence_stream_eval :
    (buildSkeletonBuffers demoWeightedSkel).1.length = 6 ∧
    ((buildSkeletonBuffers demoWeightedSkel).1.getD 0 defaultVertex).bone_indices
      = [3, 2, 1, 0] ∧
    ((buildSkeletonBuffers demoWeightedSkel).1.getD 1 defaultVertex).bone_indices
      = [2, 1, 0, 0] ∧
    ((buildSkeletonBuffers demoWeightedSkel).1.getD 0 defaultVertex).bone_weights
      = [5, 5, 5, 5] := by
  decide

/-- C4 counterexample: a weighted-mesh vertex whose stream carries weights
1/2, 1/4, 1/4 is stored with weights `[1/2, 1/2, 1/2, 0]` (the fixed-stride
read repeats the first weight), summing to 3/2, which deviates from 1.0 far
beyond 1e-4; no renormalisation takes place (that step is commented out in
the source), so the stored weight set does not sum to 1.0 within 1e-4. -/
theorem c4_weight_sum_counterexample :
    ((buildSkeletonBuffers demoWeightSumSkel).1.getD 0 defaultVertex).bone_weights
      = [1/2, 1/2, 1/2, 0] ∧
    ((buildSkeletonBuffers demoWeightSumSkel).1.getD 0 defaultVertex).bone_weights.sum
      = 3/2 ∧
    ¬ |(3 : ℚ)/2 - 1| ≤ 1/10000 := by
  have hw : ((buildSkeletonBuffers demoWeightSumSkel).1.getD 0 defaultVertex).bone_weights
      = [1/2, 1/2, 1/2, 0] := rfl
  refine ⟨hw, ?_, ?_⟩
  · rw [hw]
    norm_num
  · rw [show (3 : ℚ)/2 - 1 = 1/2 by norm_num,
      abs_of_pos (show (0 : ℚ) < 1/2 by norm_num)]
    norm_num

/-- C4 (amended): weights are never renormalised — they are stored exactly
as read. For every skeleton without weighted meshes, every baked vertex
stores exactly the weights `[1.0, 0.0, 0.0, 0.0]`, which sum to exactly 1;
weighted-mesh vertices keep their stream weights unchanged and their sums
can deviate arbitrarily from 1.0 (see the counterexample). -/
theorem c4_weights_stored_as_is (skel : List Slot)
    (hnw : ∀ s ∈ skel, ∀ m : MeshAttachment,
      s.attachment = some (.mesh m) → m.bones = []) :
    ∀ v ∈ (buildSkeletonBuffers skel).1,
      v.bone_weights = [1, 0, 0, 0] ∧ v.bone_weights.sum = 1 := by
  intro v hv
  have h := build_weights skel 0 0 0 hnw v hv
  exact ⟨h, by rw [h]; norm_num⟩

/-- Witness for the amended C4 at a concrete region-only skeleton. -/
theorem c4_weights_stored_as_is_witness :
    (∀ s ∈ ([demoRegionSlot] : List Slot), ∀ m : MeshAttachment,
      s.attachment = some (.mesh m) → m.bones = []) ∧
    ∀ v ∈ (buildSkeletonBuffers [demoRegionSlot]).1,
      v.bone_weights = [1, 0, 0, 0] ∧ v.bone_weights.sum = 1 :=
  ⟨by
      intro s hs m hm
      rw [List.mem_singleton] at hs
      subst hs
      simp [demoRegionSlot] at hm,
    c4_weights_stored_as_is [demoRegionSlot] (by
      intro s hs m hm
      rw [List.mem_singleton] at hs
      subst hs
      simp [demoRegionSlot] at hm)⟩

/-- C5 counterexample: a skeleton of 2501 region attachments bakes to
10004 vertices, exceeding `MAX_MESH_VERTICES = 10000`, and
`build_skeleton_buffers` still returns the oversized buffers — it has no
error path and performs no capacity comparison anywhere. -/
theorem c5_capacity_counterexample :
    (buildSkeletonBuffers (List.replicate 2501 demoRegionSlot)).1.length = 10004 ∧
    MAX_MESH_VERTICES
      < (buildSkeletonBuffers (List.replicate 2501 demoRegionSlot)).1.length := by
  have h : (buildSkeletonBuffers (List.replicate 2501 demoRegionSlot)).1.length
      = 4 * 2501 := build_replicate_region demoRegion 0 2501 0 0 0
  exact ⟨by rw [h], by rw [h]; norm_num [MAX_MESH_VERTICES]⟩

/-- C5 (amended): bake never fails and enforces no capacity: for every `n`
it returns `4 * n` vertices for `n` region attachments, unboundedly past
`MAX_MESH_VERTICES` (a dead constant); no `CapacityExceeded` error exists
in the code. -/
theorem c5_bake_unbounded (n : ℕ) :
    (buildSkeletonBuffers (List.replicate n demoRegionSlot)).1.length = 4 * n :=
  build_replicate_region demoRegion 0 n 0 0 0

/-- C6 counterexample: a pose whose single slot carries six deform floats,
extracted into a table of capacity four, makes the deform pass fail
(`none`, the out-of-bounds panic of the slice copy in main.rs lines
362-367) instead of truncating the overflow and reporting it. -/
theorem c6_deform_overflow_counterexample :
    extractDeform 100 4 [[1, 2, 3, 4, 5, 6]] = none ∧
    4 < totalLen [[1, 2, 3, 4, 5, 6]] := by
  refine ⟨by decide, by decide⟩

/-- C6 (amended): the per-frame deform extraction performs no capacity
check: whenever the pose's total deform float count exceeds the deform
table capacity, the pass aborts with an out-of-bounds failure (`none`,
a panic in the Rust source) and produces no truncated tables and no
report. -/
theorem c6_deform_overflow (offCap tabCap : ℕ) (slots : List (List ℚ))
    (h1 : slots.length ≤ offCap) (h2 : tabCap < totalLen slots) :
    extractDeform offCap tabCap slots = none := by
  unfold extractDeform
  exact deformLoop_overflow slots 0 0 _ _ (by simp) (by simpa using h2)
    (by simpa using h1)

/-- Witness for the amended C6 at a concrete overflowing pose. -/
theorem c6_deform_overflow_witness :
    (demoOverflowPose.length ≤ 3 ∧ 2 < totalLen demoOverflowPose) ∧
    extractDeform 3 2 demoOverflowPose = none :=
  ⟨⟨by decide, by decide⟩, c6_deform_overflow 3 2 demoOverflowPose (by decide) (by decide)⟩

/-- C7: the blend-state lookup is a total deterministic function of the
blend mode and the premultiplied-alpha flag (every one of the 8
combinations yields exactly one result), and in particular
`resolve(Additive, straight alpha)` returns alpha blend
(Add, One, One) and color blend (Add, SourceAlpha, One). -/
theorem c7_blend_resolve :
    (∀ (mode : BlendMode) (pma : Bool),
      ∃! bs : BlendStates, get_blend_states mode pma = bs) ∧
    get_blend_states .Additive false =
      { alpha_blend := ⟨.Add, .One, .One⟩
        color_blend := ⟨.Add, .Value .SourceAlpha, .One⟩ } :=
  ⟨fun mode pma => ⟨get_blend_states mode pma, rfl, fun _ h => h.symm⟩, rfl⟩

/-- C8: after the deform pass (whenever the pose fits the tables, so that
the pass completes), every slot with an empty deform array has offset −1,
every slot with N deform floats has the non-negative offset equal to the
number of deform floats of earlier slots and its N values occupy exactly
the N contiguous table cells starting there, and the ranges of two
distinct slots with active deforms never overlap: the lower slot's range
ends at or before the higher slot's offset. -/
theorem c8_deform_layout (offCap tabCap : ℕ) (slots : List (List ℚ))
    (h1 : slots.length ≤ offCap) (h2 : totalLen slots ≤ tabCap) :
    ∃ offs tab cur,
      extractDeform offCap tabCap slots = some (offs, tab, cur) ∧
      ∀ i, i < slots.length →
        (slots.getD i [] = [] → offs.getD i 0 = -1) ∧
        (slots.getD i [] ≠ [] →
          offs.getD i 0 = ((sumBefore slots i : ℕ) : ℤ) ∧
          0 ≤ offs.getD i 0 ∧
          (∀ t, t < (slots.getD i []).length →
            tab.getD (sumBefore slots i + t) 0 = (slots.getD i []).getD t 0) ∧
          ∀ j, i < j → j < slots.length → slots.getD j [] ≠ [] →
            offs.getD i 0 + ((slots.getD i []).length : ℤ) ≤ offs.getD j 0) := by
  obtain ⟨offs1, tab1, hloop, -, -, -, -, hks⟩ :=
    deformLoop_spec slots 0 0 (List.replicate offCap (-1)) (List.replicate tabCap 0)
      (by simpa using h1) (by simpa using h2)
  refine ⟨offs1, tab1, 0 + totalLen slots, ?_, ?_⟩
  · unfold extractDeform
    exact hloop
  · intro i hi
    obtain ⟨ho, htb⟩ := hks i hi
    rw [Nat.zero_add] at ho
    constructor
    · intro hnil
      rw [ho, if_pos hnil]
    · intro hnil
      have ho' : offs1.getD i 0 = ((sumBefore slots i : ℕ) : ℤ) := by
        rw [ho, if_neg hnil]
        norm_num
      refine ⟨ho', by rw [ho']; positivity, ?_, ?_⟩
      · intro t ht
        have := htb t ht
        rw [Nat.zero_add] at this
        exact this
      · intro j hij hj hjnil
        obtain ⟨hoj, -⟩ := hks j hj
        rw [Nat.zero_add] at hoj
        have hoj' : offs1.getD j 0 = ((sumBefore slots j : ℕ) : ℤ) := by
          rw [hoj, if_neg hjnil]
          norm_num
        rw [ho', hoj']
        have hmono : sumBefore slots i + (slots.getD i []).length
            ≤ sumBefore slots j := by
          rw [← sumBefore_succ_of_lt slots i hi]
          exact sumBefore_mono slots (i + 1) j (by omega)
        exact_mod_cast hmono

/-- Witness for C8 at a concrete pose: slot 0 has two deform floats,
slot 1 none, slot 2 one. -/
theorem c8_deform_layout_witness :
    (demoDeformPose.length ≤ 4 ∧ totalLen demoDeformPose ≤ 6) ∧
    ∃ offs tab cur,
      extractDeform 4 6 demoDeformPose = some (offs, tab, cur) ∧
      ∀ i, i < demoDeformPose.length →
        (demoDeformPose.getD i [] = [] → offs.getD i 0 = -1) ∧
        (demoDeformPose.getD i [] ≠ [] →
          offs.getD i 0 = ((sumBefore demoDeformPose i : ℕ) : ℤ) ∧
          0 ≤ offs.getD i 0 ∧
          (∀ t, t < (demoDeformPose.getD i []).length →
            tab.getD (sumBefore demoDeformPose i + t) 0
              = (demoDeformPose.getD i []).getD t 0) ∧
          ∀ j, i < j → j < demoDeformPose.length → demoDeformPose.getD j [] ≠ [] →
            offs.getD i 0 + ((demoDeformPose.getD i []).length : ℤ) ≤ offs.getD j 0) :=
  ⟨⟨by decide, by decide⟩, c8_deform_layout 4 6 demoDeformPose (by decide) (by decide)⟩

/-- C9 counterexample: a skeleton whose single active slot carries a
clipping attachment bakes to zero vertices and zero indices, but a
metadata entry (with zero counts) IS recorded for it, contradicting the
claim that clipping attachments produce no metadata entry. -/
theorem c9_clipping_counterexample :
    (buildSkeletonBuffers demoClippingSkel).1 = [] ∧
    (buildSkeletonBuffers demoClippingSkel).2.1 = [] ∧
    (buildSkeletonBuffers demoClippingSkel).2.2 = [⟨0, 0, 0, 0, 0⟩] := by
  decide

/-- C9 (amended): a slot whose bound attachment is a clipping attachment
(or any other non-region, non-mesh kind) contributes zero vertices and
zero indices, but still yields exactly one metadata entry for itself,
carrying `vertex_count = 0` and `index_count = 0` (the metadata push at
spine.rs lines 270-280 is unconditional). -/
theorem c9_clipping_contributes_nothing (skel : List Slot) (i : ℕ) (s : Slot)
    (hget : skel.get? i = some s) (hact : s.boneActive = true)
    (hatt : s.attachment = some .clipping) :
    ∃ info ∈ (buildSkeletonBuffers skel).2.2,
      info.slot_index = u16 i ∧ info.vertex_count = 0 ∧ info.index_count = 0 := by
  obtain ⟨info, hmem, hsi, hvc, hic, -, -⟩ :=
    build_slot_segment skel i 0 0 0 s .clipping hget hact hatt
  exact ⟨info, hmem, by simpa using hsi, by simpa [slotVerts] using hvc,
    by simpa [slotIdxs] using hic⟩

/-- Witness for the amended C9 at the concrete clipping-only skeleton. -/
theorem c9_clipping_contributes_nothing_witness :
    (demoClippingSkel.get? 0 = some ⟨true, 0, some .clipping⟩) ∧
    ∃ info ∈ (buildSkeletonBuffers demoClippingSkel).2.2,
      info.slot_index = u16 0 ∧ info.vertex_count = 0 ∧ info.index_count = 0 :=
  ⟨rfl, c9_clipping_contributes_nothing demoClippingSkel 0 ⟨true, 0, some .clipping⟩
    rfl rfl rfl⟩

/-- C10: every vertex baked for a Region attachment or an unweighted Mesh
attachment carries the weights `[1.0, 0.0, 0.0, 0.0]` and all four bone
indices equal to the draw-order loop's `slot_index` (spine.rs line 111:
`let bone_index = slot_index;` — NOT the slot's owning skeleton bone
index, which the bake never reads): the metadata entry recorded for such a
slot covers a vertex segment in which every vertex has exactly those
weights and indices, whatever the slot's `boneIndex` is. -/
theorem c10_slot_index_binding (skel : List Slot) (i : ℕ) (s : Slot) (att : Attachment)
    (hget : skel.get? i = some s) (hact : s.boneActive = true)
    (hatt : s.attachment = some att)
    (hkind : (∃ r, att = .region r) ∨ ∃ m, att = .mesh m ∧ m.bones = []) :
    ∃ info ∈ (buildSkeletonBuffers skel).2.2,
      info.slot_index = u16 i ∧
      info.vertex_count = (slotVerts i att).length ∧
      ∀ t, t < info.vertex_count →
        ((buildSkeletonBuffers skel).1.getD (info.vertex_start + t)
            defaultVertex).bone_weights = [1, 0, 0, 0] ∧
        ((buildSkeletonBuffers skel).1.getD (info.vertex_start + t)
            defaultVertex).bone_indices = [(i : ℚ), (i : ℚ), (i : ℚ), (i : ℚ)] := by
  obtain ⟨info, hmem, hsi, hvc, -, -, hseg⟩ :=
    build_slot_segment skel i 0 0 0 s att hget hact hatt
  rw [Nat.zero_add] at hsi hvc
  simp only [Nat.zero_add, Nat.sub_zero] at hseg
  unfold buildSkeletonBuffers
  refine ⟨info, hmem, hsi, hvc, ?_⟩
  intro t ht
  rw [hseg t ht]
  have hvc2 : t < (slotVerts i att).length := by
    rw [hvc] at ht
    exact ht
  have hmem2 : (slotVerts i att).getD t defaultVertex ∈ slotVerts i att := by
    rw [List.getD_eq_getElem _ _ hvc2]
    exact List.getElem_mem hvc2
  rcases hkind with ⟨r, hr⟩ | ⟨m, hm, hbones⟩
  · subst hr
    exact mem_regionVerts (by simpa [slotVerts] using hmem2)
  · subst hm
    rw [show slotVerts i (.mesh m) = unweightedVerts i m by
      rw [slotVerts, if_neg (by simp [hbones])]] at hmem2 ⊢
    exact mem_unweightedVerts hmem2

/-- Witness for C10 at a one-slot skeleton whose region slot has owning
bone index 5 (so the stored indices 0 are the loop index, not the bone
index). -/
theorem c10_slot_index_binding_witness :
    (([⟨true, 5, some (.region demoRegion)⟩] : List Slot).get? 0
        = some ⟨true, 5, some (.region demoRegion)⟩) ∧
    ∃ info ∈ (buildSkeletonBuffers [⟨true, 5, some (.region demoRegion)⟩]).2.2,
      info.slot_index = u16 0 ∧
      info.vertex_count = (slotVerts 0 (.region demoRegion)).length ∧
      ∀ t, t < info.vertex_count →
        ((buildSkeletonBuffers [⟨true, 5, some (.region demoRegion)⟩]).1.getD
            (info.vertex_start + t) defaultVertex).bone_weights = [1, 0, 0, 0] ∧
        ((buildSkeletonBuffers [⟨true, 5, some (.region demoRegion)⟩]).1.getD
            (info.vertex_start + t) defaultVertex).bone_indices
          = [(0 : ℚ), (0 : ℚ), (0 : ℚ), (0 : ℚ)] :=
  ⟨rfl, c10_slot_index_binding [⟨true, 5, some (.region demoRegion)⟩] 0
    ⟨true, 5, some (.region demoRegion)⟩ (.region demoRegion) rfl rfl rfl
    (Or.inl ⟨demoRegion, rfl⟩)⟩

end GpuSkinning
